import Mathlib

/-! Lazy-evaluation core of the Nix evaluator (`src/libexpr/eval-inline.hh`) and
the flake registry lookup (`src/libfetchers/registry.cc`).

A shallow embedding of `EvalState::forceValue`, `EvalState::evalValueAttr`,
`EvalState::forceAttrs`, `EvalState::forceList` and `allocBytes`, and of
`Registry::add`, `Registry::remove`, `getRegistries` and `lookupInRegistries`.

* The heap of `Value` cells is a function from addresses to cells; a `Value &`
  argument is the address of the cell.
* The virtual methods of expression nodes (`eval`, `evalLazyBinOp`, `evalAttr`,
  `evalLazyBinOpAttr`) and the out-of-line members `callFunction`,
  `callFunctionAttr` are parameters.  Each receives the evaluator (`*this`) so
  that it can force values re-entrantly, and may read and write the whole heap.
* A C++ exception is a result `Res.error e s` that carries the heap as it was
  when the exception was thrown.
* Re-entrancy is bounded by a fuel counter: `forceValue X fuel` lets the hooks
  nest evaluator calls `fuel` levels deep, deeper calls yield `Res.outOfFuel`.
-/

namespace Nix

/-! ## Data model -/

/-- Address of a `Value` cell. -/
abbrev Ref := Nat

/-- Identity of an expression node (`Expr *`). -/
abbrev Expr := Nat

/-- Identity of an environment (`Env *`). -/
abbrev Env := Nat

/-- Interned attribute name. -/
abbrev Symbol := String

/-- Modelled from the spec: source position (`Pos`, declared in a header that is
not part of the sources); used only for diagnostics. -/
structure Pos where
  file : String
  line : Nat
  column : Nat
  deriving DecidableEq, Repr

/-- Modelled from the spec: the position constant `noPos`. -/
def noPos : Pos := ⟨"", 0, 0⟩

/-- Modelled from the spec: the tag of a `Value` (`ValueType`, declared in a
header that is not part of the sources).  `eval-inline.hh` names `tThunk`,
`tLazyBinOp`, `tApp`, `tBlackhole` and `tAttrs`; the other concrete tags are
those of the spec's data model, `tOther` standing for the remaining concrete
variants. -/
inductive ValueType
  | tInt
  | tBool
  | tString
  | tPath
  | tNull
  | tAttrs
  | tList
  | tLambda
  | tThunk
  | tApp
  | tLazyBinOp
  | tBlackhole
  | tOther (code : Nat)
  deriving DecidableEq, Repr

/-- Modelled from the spec: an attribute-set entry, a name bound to a value
reference and its defining position. -/
structure Attr where
  name : Symbol
  value : Ref
  pos : Pos
  deriving DecidableEq, Repr

/-- Modelled from the spec: the entries of an attribute set (`Bindings`). -/
abbrev Bindings := List Attr

/-- Modelled from the spec: `Bindings::find`, lookup by symbol; `none` is the
`end()` iterator. -/
def Bindings.find (b : Bindings) (name : Symbol) : Option Attr :=
  List.find? (fun a => a.name == name) b

/-- Modelled from the spec: the record behind `v.lazyBinOp`, an operator node,
its environment and the two unforced operand slots. -/
structure LazyBinOp where
  expr : Expr
  env : Env
  left : Ref
  right : Ref
  deriving DecidableEq, Repr

/-- Modelled from the spec: the union part of a `Value`.  The constructor is the
member written last; `zero` is freshly allocated (zeroed) memory. -/
inductive Payload
  | zero
  | integer (n : Int)
  | boolean (b : Bool)
  | string (s : String)
  | path (s : String)
  | attrs (b : Bindings)
  | list (elems : List Ref)
  | thunk (env : Env) (expr : Expr)
  | app (left : Ref) (right : Ref)
  | lazyBinOp (p : LazyBinOp)
  | other (data : Nat)
  deriving DecidableEq, Repr

/-- Read of `v.thunk.env` (an unspecified value, fixed as 0, when the thunk
member is not the active one). -/
def Payload.thunkEnv : Payload → Env
  | .thunk env _ => env
  | _ => 0

/-- Read of `v.thunk.expr`. -/
def Payload.thunkExpr : Payload → Expr
  | .thunk _ expr => expr
  | _ => 0

/-- Read of `v.app.left`. -/
def Payload.appLeft : Payload → Ref
  | .app left _ => left
  | _ => 0

/-- Read of `v.app.right`. -/
def Payload.appRight : Payload → Ref
  | .app _ right => right
  | _ => 0

/-- Read of `*v.lazyBinOp`. -/
def Payload.getLazyBinOp : Payload → LazyBinOp
  | .lazyBinOp p => p
  | _ => ⟨0, 0, 0, 0⟩

/-- Read of `*v.attrs`. -/
def Payload.getAttrs : Payload → Bindings
  | .attrs b => b
  | _ => []

/-- Modelled from the spec: a `Value` cell, a mutable tag and the union. -/
structure Value where
  type : ValueType
  payload : Payload
  deriving DecidableEq, Repr

/-- Tags of the spec's Concrete variants: every tag other than the three
deferred ones and Blackhole. -/
def ValueType.isConcrete (t : ValueType) : Bool :=
  t != .tThunk && t != .tLazyBinOp && t != .tApp && t != .tBlackhole

/-- Tags of the deferred variants. -/
def ValueType.isDeferred (t : ValueType) : Bool :=
  t == .tThunk || t == .tLazyBinOp || t == .tApp

/-- Formatted message: a format string and its arguments (the `hintfmt` of the
sources, kept unrendered). -/
structure HintFmt where
  fmt : String
  args : List String
  deriving DecidableEq, Repr

/-- Exceptions. `EvalError` and `TypeError` are the two classes thrown by
`eval-inline.hh`; `other` is any exception raised by external code. -/
inductive Error
  | EvalError (hint : HintFmt) (errPos : Option Pos)
  | TypeError (hint : HintFmt) (errPos : Option Pos)
  | other (what : String)
  deriving DecidableEq, Repr

/-- One invocation of an external evaluation hook, with its arguments. -/
inductive HookCall
  | eval (expr : Expr) (env : Env) (v : Ref)
  | evalLazyBinOp (expr : Expr) (env : Env) (left : Ref) (right : Ref) (v : Ref)
  | callFunction (fn : Ref) (arg : Ref) (v : Ref) (pos : Pos)
  | evalAttr (expr : Expr) (env : Env) (v : Ref) (name : Symbol)
  | evalLazyBinOpAttr (expr : Expr) (env : Env) (left : Ref) (right : Ref)
      (name : Symbol) (v : Ref)
  | callFunctionAttr (fn : Ref) (arg : Ref) (v : Ref) (name : Symbol) (pos : Pos)
  deriving DecidableEq, Repr

/-- Evaluator state: the heap of `Value` cells, and the log of hook invocations
made so far (instrumentation; the evaluator appends one entry right before it
calls a hook). -/
structure State where
  values : Ref → Value
  trace : List HookCall

/-- Outcome of a call: normal return, exception, or re-entrancy budget used up. -/
inductive Res (α : Type) where
  | ok (a : α) (s : State)
  | error (e : Error) (s : State)
  | outOfFuel

/-- Assignment `v.type = t`. -/
def State.setType (s : State) (v : Ref) (t : ValueType) : State :=
  { s with values := Function.update s.values v ⟨t, (s.values v).payload⟩ }

/-- Assignment `v.thunk.env = env`. -/
def State.setThunkEnv (s : State) (v : Ref) (env : Env) : State :=
  { s with values := (Function.update s.values v
      ⟨(s.values v).type, .thunk env (s.values v).payload.thunkExpr⟩) }

/-- Assignment `v.thunk.expr = expr`. -/
def State.setThunkExpr (s : State) (v : Ref) (expr : Expr) : State :=
  { s with values := (Function.update s.values v
      ⟨(s.values v).type, .thunk (s.values v).payload.thunkEnv expr⟩) }

/-- Assignment `v = val` of a whole cell. -/
def State.setValue (s : State) (v : Ref) (val : Value) : State :=
  { s with values := Function.update s.values v val }

/-- Log a hook invocation. -/
def State.record (s : State) (c : HookCall) : State :=
  { s with trace := s.trace ++ [c] }

/-- The evaluator as external code sees it (`EvalState & state`). -/
structure EvalStateApi where
  forceValue : Ref → Pos → State → Res Unit
  evalValueAttr : Ref → Symbol → Pos → State → Res (Option Attr)

/-- The external evaluation code: virtual methods of expression nodes, indexed
by the node, and the out-of-line members `callFunction`, `callFunctionAttr`. -/
structure Hooks where
  eval : Expr → EvalStateApi → Env → Ref → State → Res Unit
  evalLazyBinOp : Expr → EvalStateApi → Env → Ref → Ref → Ref → State → Res Unit
  callFunction : EvalStateApi → Ref → Ref → Ref → Pos → State → Res Unit
  evalAttr : Expr → EvalStateApi → Env → Ref → Symbol → State → Res (Option Attr)
  evalLazyBinOpAttr :
    Expr → EvalStateApi → Env → Ref → Ref → Symbol → Ref → State → Res (Option Attr)
  callFunctionAttr :
    EvalStateApi → Ref → Ref → Ref → Symbol → Pos → State → Res (Option Attr)

/-- Pure helpers on values declared outside the sources: `showType` and
`Value::isList` (a predicate over the tag). -/
structure ValueOps where
  showType : Value → String
  isList : ValueType → Bool

/-! ## `eval-inline.hh` -/

/-- `throwEvalError(pos, s)`. -/
def throwEvalError {α : Type} (pos : Pos) (msg : String) (s : State) : Res α :=
  .error (.EvalError ⟨msg, []⟩ (some pos)) s

/-- `throwTypeError(s, v)`. -/
def throwTypeError {α : Type} (O : ValueOps) (msg : String) (v : Ref) (s : State) : Res α :=
  .error (.TypeError ⟨msg, [O.showType (s.values v)]⟩ none) s

/-- `throwTypeError(pos, s, v)`. -/
def throwTypeErrorAt {α : Type} (O : ValueOps) (pos : Pos) (msg : String) (v : Ref)
    (s : State) : Res α :=
  .error (.TypeError ⟨msg, [O.showType (s.values v)]⟩ (some pos)) s

/-- Body of `EvalState::forceValue(Value & v, const Pos & pos)`; `self` is `*this`
as handed to the hooks. -/
def forceValueBody (X : Hooks) (self : EvalStateApi) (v : Ref) (pos : Pos) (s : State) :
    Res Unit :=
  if (s.values v).type = .tThunk then
    let env := (s.values v).payload.thunkEnv
    let expr := (s.values v).payload.thunkExpr
    let s1 := s.setType v .tBlackhole
    match X.eval expr self env v (s1.record (.eval expr env v)) with
    | .ok a s2 => .ok a s2
    | .error e s2 =>
      .error e (((s2.setType v .tThunk).setThunkEnv v env).setThunkExpr v expr)
    | .outOfFuel => .outOfFuel
  else if (s.values v).type = .tLazyBinOp then
    let lazyBinOp := (s.values v).payload.getLazyBinOp
    X.evalLazyBinOp lazyBinOp.expr self lazyBinOp.env lazyBinOp.left lazyBinOp.right v
      (s.record (.evalLazyBinOp lazyBinOp.expr lazyBinOp.env lazyBinOp.left
        lazyBinOp.right v))
  else if (s.values v).type = .tApp then
    X.callFunction self (s.values v).payload.appLeft (s.values v).payload.appRight v noPos
      (s.record (.callFunction (s.values v).payload.appLeft (s.values v).payload.appRight
        v noPos))
  else if (s.values v).type = .tBlackhole then
    throwEvalError pos "infinite recursion encountered (tBlackhole in forceValue)" s
  else
    .ok () s

/-- Body of `EvalState::evalValueAttr(Value & v, const Symbol & name, const Pos & pos)`. -/
def evalValueAttrBody (X : Hooks) (self : EvalStateApi) (v : Ref) (name : Symbol) (pos : Pos)
    (s : State) : Res (Option Attr) :=
  match (s.values v).type with
  | .tThunk =>
    X.evalAttr (s.values v).payload.thunkExpr self (s.values v).payload.thunkEnv v name
      (s.record (.evalAttr (s.values v).payload.thunkExpr (s.values v).payload.thunkEnv
        v name))
  | .tLazyBinOp =>
    let p := (s.values v).payload.getLazyBinOp
    X.evalLazyBinOpAttr p.expr self p.env p.left p.right name v
      (s.record (.evalLazyBinOpAttr p.expr p.env p.left p.right name v))
  | .tApp =>
    X.callFunctionAttr self (s.values v).payload.appLeft (s.values v).payload.appRight v
      name pos
      (s.record (.callFunctionAttr (s.values v).payload.appLeft
        (s.values v).payload.appRight v name pos))
  | .tAttrs =>
    match (s.values v).payload.getAttrs.find name with
    | none => .ok none s
    | some j => .ok (some j) s
  | .tBlackhole =>
    throwEvalError pos "infinite recursion encountered (tBlackhole in evalValueAttr)" s
  | _ => .ok none s

/-- The evaluator handed to the hooks, allowing `fuel` further levels of
re-entrant calls. -/
def reentrant (X : Hooks) : Nat → EvalStateApi
  | 0 =>
    { forceValue := fun _ _ _ => .outOfFuel
      evalValueAttr := fun _ _ _ _ => .outOfFuel }
  | fuel + 1 =>
    { forceValue := forceValueBody X (reentrant X fuel)
      evalValueAttr := evalValueAttrBody X (reentrant X fuel) }

/-- `EvalState::forceValue(v, pos)`. -/
def forceValue (X : Hooks) (fuel : Nat) (v : Ref) (pos : Pos) (s : State) : Res Unit :=
  forceValueBody X (reentrant X fuel) v pos s

/-- `EvalState::evalValueAttr(v, name, pos)`. -/
def evalValueAttr (X : Hooks) (fuel : Nat) (v : Ref) (name : Symbol) (pos : Pos)
    (s : State) : Res (Option Attr) :=
  evalValueAttrBody X (reentrant X fuel) v name pos s

/-- `EvalState::forceAttrs(Value & v)`; the position-less `forceValue(v)` is
`forceValue(v, noPos)`. -/
def forceAttrs (X : Hooks) (O : ValueOps) (fuel : Nat) (v : Ref) (s : State) : Res Unit :=
  match forceValue X fuel v noPos s with
  | .ok _ s1 =>
    if (s1.values v).type ≠ .tAttrs then
      throwTypeError O "value is %1% while a set was expected" v s1
    else .ok () s1
  | .error e s1 => .error e s1
  | .outOfFuel => .outOfFuel

/-- `EvalState::forceAttrs(Value & v, const Pos & pos)`. -/
def forceAttrsAt (X : Hooks) (O : ValueOps) (fuel : Nat) (v : Ref) (pos : Pos) (s : State) :
    Res Unit :=
  match forceValue X fuel v pos s with
  | .ok _ s1 =>
    if (s1.values v).type ≠ .tAttrs then
      throwTypeErrorAt O pos "value is %1% while a set was expected" v s1
    else .ok () s1
  | .error e s1 => .error e s1
  | .outOfFuel => .outOfFuel

/-- `EvalState::forceList(Value & v)`. -/
def forceList (X : Hooks) (O : ValueOps) (fuel : Nat) (v : Ref) (s : State) : Res Unit :=
  match forceValue X fuel v noPos s with
  | .ok _ s1 =>
    if !O.isList (s1.values v).type then
      throwTypeError O "value is %1% while a list was expected" v s1
    else .ok () s1
  | .error e s1 => .error e s1
  | .outOfFuel => .outOfFuel

/-- `EvalState::forceList(Value & v, const Pos & pos)`. -/
def forceListAt (X : Hooks) (O : ValueOps) (fuel : Nat) (v : Ref) (pos : Pos) (s : State) :
    Res Unit :=
  match forceValue X fuel v pos s with
  | .ok _ s1 =>
    if !O.isList (s1.values v).type then
      throwTypeErrorAt O pos "value is %1% while a list was expected" v s1
    else .ok () s1
  | .error e s1 => .error e s1
  | .outOfFuel => .outOfFuel

/-- Result of a raw allocation: the address returned (0 is the null pointer) and
the contents of the block behind it. -/
structure Block where
  ptr : Nat
  bytes : List Nat
  deriving DecidableEq, Repr

/-- The exception `std::bad_alloc`. -/
inductive StdException
  | bad_alloc
  deriving DecidableEq, Repr

/-- The underlying memory sources, external to the sources: `GC_MALLOC(n)` and
`calloc(n, size)`. -/
structure MemorySource where
  GC_MALLOC : Nat → Block
  calloc : Nat → Nat → Block

/-- `allocBytes(n)`; `HAVE_BOEHMGC` is the build flag selecting the memory
source. -/
def allocBytes (HAVE_BOEHMGC : Bool) (M : MemorySource) (n : Nat) :
    Except StdException Block :=
  let p := if HAVE_BOEHMGC then M.GC_MALLOC n else M.calloc n 1
  if p.ptr = 0 then .error .bad_alloc else .ok p

/-! ## `src/libfetchers/registry.cc` -/

/-- Attribute map attached to a registry entry (`Attrs`). -/
abbrev Attrs := List (String × String)

/-- Revision hash (`Hash`). -/
abbrev Hash := String

/-- The members of `Input` (declared in `fetchers.hh`, not among the sources) that
`registry.cc` calls, as parameters; `applyOverrides` may throw. -/
structure InputOps (I : Type) where
  eq : I → I → Bool
  contains : I → I → Bool
  getRef : I → Option String
  getRev : I → Option Hash
  applyOverrides : I → Option String → Option Hash → Except String I
  isDirect : I → Bool
  to_string : I → String

/-- `Registry::Entry` (the fields `from` and `to` are written `from_` and `to_`). -/
structure Entry (I : Type) where
  from_ : I
  to_ : I
  extraAttrs : Attrs
  deriving DecidableEq, Repr

/-- `Registry::RegistryType`. -/
inductive RegistryType
  | Flag
  | User
  | System
  | Global
  deriving DecidableEq, Repr

/-- `Registry`: its type and its entries in stored order. -/
structure Registry (I : Type) where
  type : RegistryType
  entries : List (Entry I)
  deriving DecidableEq, Repr

/-- `Registry::add(from, to, extraAttrs)`: `entries.emplace_back(...)`. -/
def Registry.add {I : Type} (r : Registry I) (from_ to_ : I) (extraAttrs : Attrs) :
    Registry I :=
  { r with entries := r.entries ++ [⟨from_, to_, extraAttrs⟩] }

/-- The loop of `Registry::remove`, with the iterator `i` as an index into
`entries`; `none` when the iteration budget is used up. -/
def Registry.removeLoop {I : Type} (ops : InputOps I) (input : I) :
    Nat → Nat → List (Entry I) → Option (List (Entry I))
  | 0, _, _ => none
  | fuel + 1, i, entries =>
    match entries[i]? with
    | none => some entries
    | some e =>
      if ops.eq e.from_ input then
        Registry.removeLoop ops input fuel i (entries.eraseIdx i)
      else
        Registry.removeLoop ops input fuel (i + 1) entries

/-- `Registry::remove(input)`; the budget of `length + 1` iterations always
suffices. -/
def Registry.remove {I : Type} (ops : InputOps I) (r : Registry I) (input : I) :
    Option (Registry I) :=
  (Registry.removeLoop ops input (r.entries.length + 1) 0 r.entries).map
    (fun es => { r with entries := es })

/-- `getRegistries(store)`: the flag, user, system and global registries, pushed in
this order. -/
def getRegistries {I : Type} (flag user system global : Registry I) : List (Registry I) :=
  [flag, user, system, global]

/-- Errors thrown by `lookupInRegistries`: "cycle detected in flake registr for
'%s'" with the current input, "cannot find flake '%s' in the flake registries"
with `input->to_string()`, and whatever `applyOverrides` throws. -/
inductive RegistryError (I : Type)
  | cycleDetected (input : I)
  | cannotFind (name : String)
  | external (what : String)
  deriving DecidableEq, Repr

/-- Outcome of `lookupInRegistries`. -/
inductive LookupRes (I : Type)
  | ok (input : I) (extraAttrs : Attrs)
  | error (e : RegistryError I)
  | outOfFuel
  deriving DecidableEq, Repr

/-- The inner loop `for (auto & entry : registry->entries)`: the first entry whose
`from` contains the input. -/
def scanEntries {I : Type} (ops : InputOps I) (input : I) : List (Entry I) → Option (Entry I)
  | [] => none
  | entry :: rest =>
    if ops.contains entry.from_ input then some entry else scanEntries ops input rest

/-- The outer loop `for (auto & registry : getRegistries(store))`. -/
def scanRegistries {I : Type} (ops : InputOps I) (input : I) :
    List (Registry I) → Option (Entry I)
  | [] => none
  | registry :: rest =>
    match scanEntries ops input registry.entries with
    | some entry => some entry
    | none => scanRegistries ops input rest

/-- The rewrite `entry.to->applyOverrides(...)`: the ref (rev) of the input is
carried over when `from` has none and the input has one. -/
def rewriteInput {I : Type} (ops : InputOps I) (entry : Entry I) (input : I) :
    Except String I :=
  ops.applyOverrides entry.to_
    (if (ops.getRef entry.from_).isNone && (ops.getRef input).isSome
      then ops.getRef input else none)
    (if (ops.getRev entry.from_).isNone && (ops.getRev input).isSome
      then ops.getRev input else none)

/-- The body of `lookupInRegistries` from the label `restart` on, with the
counter `n`, the current `input` and `extraAttrs` as arguments; `goto restart`
is the recursive call. -/
def lookupLoop {I : Type} (ops : InputOps I) (registries : List (Registry I)) :
    Nat → Nat → I → Attrs → LookupRes I
  | 0, _, _, _ => .outOfFuel
  | fuel + 1, n, input, extraAttrs =>
    let n := n + 1
    if n > 100 then .error (.cycleDetected input)
    else
      match scanRegistries ops input registries with
      | some entry =>
        match rewriteInput ops entry input with
        | .ok input2 => lookupLoop ops registries fuel n input2 entry.extraAttrs
        | .error what => .error (.external what)
      | none =>
        if !ops.isDirect input then .error (.cannotFind (ops.to_string input))
        else .ok input extraAttrs

/-- `lookupInRegistries(store, input)`, with `registries` the value of
`getRegistries(store)`; 101 passes through `restart` always suffice. -/
def lookupInRegistries {I : Type} (ops : InputOps I) (registries : List (Registry I))
    (input : I) : LookupRes I :=
  lookupLoop ops registries 101 0 input []

/-- The rewrite chain of the claims: the input reached from `input` by `k`
successive rewrites, each by the first matching entry, with the entries applied
in order; `none` when fewer than `k` rewrites apply. -/
def rewriteChain {I : Type} (ops : InputOps I) (registries : List (Registry I)) :
    Nat → I → Option (I × List (Entry I))
  | 0, input => some (input, [])
  | k + 1, input =>
    match scanRegistries ops input registries with
    | some entry =>
      match rewriteInput ops entry input with
      | .ok input2 =>
        (rewriteChain ops registries k input2).map (fun r => (r.1, entry :: r.2))
      | .error _ => none
    | none => none

/-- The extra attributes of the last entry of a list of applied entries, empty
when no entry was applied. -/
def lastExtraAttrs {I : Type} (applied : List (Entry I)) : Attrs :=
  match applied.getLast? with
  | some entry => entry.extraAttrs
  | none => []

/-! ## Concrete hooks and states used to evaluate the definitions -/

/-- The exception class name of `EvalError` thrown on Blackhole re-entry by
`forceValue` at position `pos`. -/
def infiniteRecursion (pos : Pos) : Error :=
  .EvalError ⟨"infinite recursion encountered (tBlackhole in forceValue)", []⟩ (some pos)

/-- Hooks that all return at once without touching the state. -/
def idleHooks : Hooks where
  eval := fun _ _ _ _ s => .ok () s
  evalLazyBinOp := fun _ _ _ _ _ _ s => .ok () s
  callFunction := fun _ _ _ _ _ s => .ok () s
  evalAttr := fun _ _ _ _ _ s => .ok none s
  evalLazyBinOpAttr := fun _ _ _ _ _ _ _ s => .ok none s
  callFunctionAttr := fun _ _ _ _ _ _ s => .ok none s

/-- A heap in which every cell holds the given value, with an empty log. -/
def State.const (val : Value) : State :=
  { values := fun _ => val, trace := [] }

/-- An `eval` hook that first overwrites the target with the integer 42 and then
throws. -/
def failingHooks : Hooks :=
  { idleHooks with
    eval := fun _ _ _ v s => .error (.other "assertion failed")
      (s.setValue v ⟨.tInt, .integer 42⟩) }

/-- A position used in examples. -/
def pos1 : Pos := ⟨"default.nix", 3, 7⟩

/-- Read of `v.integer`. -/
def Payload.getInteger : Payload → Int
  | .integer n => n
  | _ => 0

/-- Hooks whose `evalLazyBinOp` is integer addition: it forces both operands, then
writes their sum into the target. -/
def addHooks : Hooks :=
  { idleHooks with
    evalLazyBinOp := fun _ self _ l r v s =>
      match self.forceValue l noPos s with
      | .ok _ s1 =>
        match self.forceValue r noPos s1 with
        | .ok _ s2 =>
          .ok () (s2.setValue v ⟨.tInt,
            .integer ((s2.values l).payload.getInteger + (s2.values r).payload.getInteger)⟩)
        | .error e s2 => .error e s2
        | .outOfFuel => .outOfFuel
      | .error e s1 => .error e s1
      | .outOfFuel => .outOfFuel }

/-- The heap of `x = 1 + 2`: cell 0 is the deferred sum of cells 1 and 2. -/
def sumState : State :=
  { values := fun r =>
      if r = 0 then ⟨.tLazyBinOp, .lazyBinOp ⟨9, 0, 1, 2⟩⟩
      else if r = 1 then ⟨.tInt, .integer 1⟩
      else ⟨.tInt, .integer 2⟩
    trace := [] }

/-- An `eval` hook that forces its own target first and lets any error
propagate. -/
def selfForcingHooks : Hooks :=
  { idleHooks with
    eval := fun _ self _ v s =>
      match self.forceValue v pos1 s with
      | .ok _ s1 => .ok () (s1.setValue v ⟨.tNull, .zero⟩)
      | .error e s1 => .error e s1
      | .outOfFuel => .outOfFuel }

/-- An `eval` hook using the escape hatch: it first overwrites its target with an
empty attribute set and only then forces the target again. -/
def selfUpdatingHooks : Hooks :=
  { idleHooks with
    eval := fun _ self _ v s =>
      match self.forceValue v pos1 (s.setValue v ⟨.tAttrs, .attrs []⟩) with
      | .ok _ s1 => .ok () s1
      | .error e s1 => .error e s1
      | .outOfFuel => .outOfFuel }

/-- An `eval` hook that turns its target into a deferred binary operation and
returns. -/
def deferringHooks : Hooks :=
  { idleHooks with
    eval := fun e _ env v s => .ok () (s.setValue v ⟨.tLazyBinOp, .lazyBinOp ⟨e, env, 1, 2⟩⟩) }

/-- An `eval` hook that writes the empty list into its target. -/
def listHooks : Hooks :=
  { idleHooks with
    eval := fun _ _ _ v s => .ok () (s.setValue v ⟨.tList, .list []⟩) }

/-- Modelled from the spec: a `showType` giving the human-readable type name of
the tag, and `isList` as the predicate "the tag is the list tag". -/
def defaultOps : ValueOps where
  showType := fun val =>
    match val.type with
    | .tInt => "an integer"
    | .tBool => "a boolean"
    | .tString => "a string"
    | .tPath => "a path"
    | .tNull => "null"
    | .tAttrs => "a set"
    | .tList => "a list"
    | .tLambda => "a function"
    | _ => "a thunk"
  isList := fun t => t == .tList

/-- The heap of the attribute set with entries `a = 1` and `b = 2`: cell 0 is the
set, cells 1 and 2 the integers. -/
def attrsState : State :=
  { values := fun r =>
      if r = 0 then ⟨.tAttrs, .attrs [⟨"a", 1, pos1⟩, ⟨"b", 2, pos1⟩]⟩
      else if r = 1 then ⟨.tInt, .integer 1⟩
      else ⟨.tInt, .integer 2⟩
    trace := [] }

/-- The `EvalError` thrown on a Blackhole by `evalValueAttr` at position `pos`. -/
def infiniteRecursionAttr (pos : Pos) : Error :=
  .EvalError ⟨"infinite recursion encountered (tBlackhole in evalValueAttr)", []⟩ (some pos)

/-- Hooks whose attribute shortcut answers directly with an entry for the name
asked, and whose full-evaluation hooks throw. -/
def shortcutHooks : Hooks :=
  { idleHooks with
    eval := fun _ _ _ _ s => .error (.other "full evaluation") s
    evalLazyBinOp := fun _ _ _ _ _ _ s => .error (.other "full evaluation") s
    evalAttr := fun _ _ _ _ name s => .ok (some ⟨name, 1, pos1⟩) s
    evalLazyBinOpAttr := fun _ _ _ _ _ name _ s => .ok (some ⟨name, 2, pos1⟩) s }

/-- Hooks whose `evalLazyBinOp` and `callFunction` first overwrite the target
with the integer 42 and then throw. -/
def dirtyFailingHooks : Hooks :=
  { idleHooks with
    evalLazyBinOp := fun _ _ _ _ _ v s =>
      .error (.other "operand is not a number") (s.setValue v ⟨.tInt, .integer 42⟩)
    callFunction := fun _ _ _ v _ s =>
      .error (.other "not a function") (s.setValue v ⟨.tInt, .integer 42⟩) }

/-- Modelled from the spec: `EvalState::callFunctionAttr` (a member defined outside
the sources), from "Application: force the application (via the Forcing Engine
path for applications) then resolve the attribute on the result": the call
`callFunction(fun, arg, v, noPos)` that `forceValue` makes for an Application,
then `evalValueAttr(v, name, pos)`. -/
def callFunctionAttrSpec
    (callFunction : EvalStateApi → Ref → Ref → Ref → Pos → State → Res Unit)
    (self : EvalStateApi) (fn arg v : Ref) (name : Symbol) (pos : Pos) (s : State) :
    Res (Option Attr) :=
  match callFunction self fn arg v noPos (s.record (.callFunction fn arg v noPos)) with
  | .ok _ s1 => self.evalValueAttr v name pos s1
  | .error e s1 => .error e s1
  | .outOfFuel => .outOfFuel

/-- Hooks whose `callFunction` writes the attribute set with the single entry
`a` into the target, and whose `callFunctionAttr` is the one modelled from the
spec. -/
def applyHooks : Hooks :=
  { idleHooks with
    callFunction := fun _ _ _ v _ s =>
      .ok () (s.setValue v ⟨.tAttrs, .attrs [⟨"a", 1, pos1⟩]⟩)
    callFunctionAttr := callFunctionAttrSpec (fun _ _ _ v _ s =>
      .ok () (s.setValue v ⟨.tAttrs, .attrs [⟨"a", 1, pos1⟩]⟩)) }

/-- A memory source that is exhausted at and above 4096 bytes and otherwise
returns a zeroed block at address 64. -/
def smallHeap : MemorySource where
  GC_MALLOC := fun n => if n < 4096 then ⟨64, List.replicate n 0⟩ else ⟨0, []⟩
  calloc := fun n size => if n * size < 4096 then ⟨64, List.replicate (n * size) 0⟩ else ⟨0, []⟩

/-- Inputs as numbers: an input is direct from 1000 on, `contains` and `==` are
equality, and `applyOverrides` returns the target unchanged. -/
def natInputs : InputOps Nat where
  eq := fun a b => a == b
  contains := fun a b => a == b
  getRef := fun _ => none
  getRev := fun _ => none
  applyOverrides := fun target _ _ => .ok target
  isDirect := fun i => decide (1000 ≤ i)
  to_string := fun i => toString i

/-- A flag registry with entries `0 → 1` and `7 → 1000`. -/
def flagReg : Registry Nat :=
  ⟨.Flag, [⟨0, 1, [("dir", "flag")]⟩, ⟨7, 1000, [("dir", "seven")]⟩]⟩

/-- A user registry with entries `0 → 2000`, `1 → 2` and `0 → 3000`. -/
def userReg : Registry Nat :=
  ⟨.User, [⟨0, 2000, [("dir", "user")]⟩, ⟨1, 2, [("dir", "one")]⟩, ⟨0, 3000, []⟩]⟩

/-- A system registry with the entry `2 → 1001`. -/
def systemReg : Registry Nat :=
  ⟨.System, [⟨2, 1001, [("dir", "two")]⟩]⟩

/-- A global registry with entries `0 → 4000` and `5 → 6`. -/
def globalReg : Registry Nat :=
  ⟨.Global, [⟨0, 4000, []⟩, ⟨5, 6, []⟩]⟩

/-- A single registry holding the chain `0 → 1 → ⋯ → 100` of direct-free,
pairwise distinct inputs. -/
def chainReg : Registry Nat :=
  ⟨.Global, (List.range 100).map (fun k => ⟨k, k + 1, []⟩)⟩

/-! ## Shared lemmas -/

theorem restore_values_self (s : State) (v : Ref) (env : Env) (expr : Expr) :
    (((s.setType v .tThunk).setThunkEnv v env).setThunkExpr v expr).values v
      = ⟨.tThunk, .thunk env expr⟩ := by
  simp [State.setType, State.setThunkEnv, State.setThunkExpr, Payload.thunkEnv]

theorem restore_values_other (s : State) (v w : Ref) (env : Env) (expr : Expr) (h : w ≠ v) :
    (((s.setType v .tThunk).setThunkEnv v env).setThunkExpr v expr).values w
      = s.values w := by
  simp [State.setType, State.setThunkEnv, State.setThunkExpr, Function.update, h]

theorem restore_trace (s : State) (v : Ref) (env : Env) (expr : Expr) :
    (((s.setType v .tThunk).setThunkEnv v env).setThunkExpr v expr).trace = s.trace := by
  simp [State.setType, State.setThunkEnv, State.setThunkExpr]

theorem forceValue_thunk_unfold (X : Hooks) (fuel : Nat) (s : State) (v : Ref) (pos : Pos)
    (e : Expr) (env : Env) (hv : s.values v = ⟨.tThunk, .thunk env e⟩) :
    forceValue X fuel v pos s =
      match X.eval e (reentrant X fuel) env v
          ((s.setType v .tBlackhole).record (.eval e env v)) with
      | .ok a s2 => .ok a s2
      | .error err s2 =>
        .error err (((s2.setType v .tThunk).setThunkEnv v env).setThunkExpr v e)
      | .outOfFuel => .outOfFuel := by
  simp [forceValue, forceValueBody, hv, Payload.thunkEnv, Payload.thunkExpr]

theorem forceValue_blackhole_eq (X : Hooks) (fuel : Nat) (s : State) (v : Ref) (pos : Pos)
    (hv : (s.values v).type = .tBlackhole) :
    forceValue X fuel v pos s = .error (infiniteRecursion pos) s := by
  simp [forceValue, forceValueBody, hv, throwEvalError, infiniteRecursion]

theorem forceValue_concrete_eq (X : Hooks) (fuel : Nat) (s : State) (v : Ref) (pos : Pos)
    (hv : (s.values v).type.isConcrete = true) :
    forceValue X fuel v pos s = .ok () s := by
  simp [ValueType.isConcrete] at hv
  simp [forceValue, forceValueBody, hv]

theorem getLast_extraAttrs_cons {I : Type} (e : Entry I) (es : List (Entry I))
    (extra : Attrs) :
    (((e :: es).getLast?.map (fun x => x.extraAttrs)).getD extra)
      = ((es.getLast?.map (fun x => x.extraAttrs)).getD e.extraAttrs) := by
  rw [List.getLast?_cons]
  cases es.getLast? <;> simp

theorem lastExtraAttrs_eq {I : Type} (es : List (Entry I)) :
    lastExtraAttrs es = ((es.getLast?.map (fun x => x.extraAttrs)).getD []) := by
  unfold lastExtraAttrs
  cases es.getLast? <;> simp

theorem scanEntries_eq_find {I : Type} (ops : InputOps I) (input : I) (es : List (Entry I)) :
    scanEntries ops input es = es.find? (fun e => ops.contains e.from_ input) := by
  induction es with
  | nil => rfl
  | cons e rest ih =>
    simp only [scanEntries, List.find?_cons]
    cases ops.contains e.from_ input <;> simp [ih]

theorem scanRegistries_eq_find {I : Type} (ops : InputOps I) (input : I)
    (rs : List (Registry I)) :
    scanRegistries ops input rs
      = (rs.flatMap (fun r => r.entries)).find? (fun e => ops.contains e.from_ input) := by
  induction rs with
  | nil => rfl
  | cons r rest ih =>
    simp only [scanRegistries, List.flatMap_cons, List.find?_append, scanEntries_eq_find]
    cases List.find? (fun e => ops.contains e.from_ input) r.entries <;> simp [ih]

theorem lookupLoop_cycle_iff {I : Type} (ops : InputOps I) (rs : List (Registry I)) (x : I) :
    ∀ (m n : Nat) (input : I) (extra : Attrs), n + m = 100 →
      (lookupLoop ops rs (m + 1) n input extra = .error (.cycleDetected x) ↔
        ∃ es, rewriteChain ops rs m input = some (x, es)) := by
  intro m
  induction m with
  | zero =>
    intro n input extra hn
    have h : n = 100 := by omega
    subst h
    simp [lookupLoop, rewriteChain]
  | succ m ih =>
    intro n input extra hn
    have h : ¬ (n + 1 > 100) := by omega
    rw [lookupLoop]
    simp only [h, if_false]
    rw [rewriteChain]
    cases hs : scanRegistries ops input rs with
    | none =>
      simp only []
      cases ops.isDirect input <;> simp
    | some e =>
      simp only []
      cases hr : rewriteInput ops e input with
      | error w => simp
      | ok i2 =>
        simp only []
        rw [ih (n + 1) i2 e.extraAttrs (by omega)]
        constructor
        · rintro ⟨es, hes⟩
          exact ⟨e :: es, by simp [hes]⟩
        · rintro ⟨es, hes⟩
          cases hc : rewriteChain ops rs m i2 with
          | none => simp [hc] at hes
          | some r =>
            simp [hc] at hes
            exact ⟨r.2, by rw [← hes.1]⟩

theorem lookupLoop_ok_chain {I : Type} (ops : InputOps I) (rs : List (Registry I)) (x : I)
    (a : Attrs) :
    ∀ (m n : Nat) (input : I) (extra : Attrs), n + m = 100 →
      lookupLoop ops rs (m + 1) n input extra = .ok x a →
      ∃ k es, k < m ∧ rewriteChain ops rs k input = some (x, es) ∧
        scanRegistries ops x rs = none ∧ ops.isDirect x = true ∧
        a = ((es.getLast?.map (fun e => e.extraAttrs)).getD extra) := by
  intro m
  induction m with
  | zero =>
    intro n input extra hn hrun
    have h : n = 100 := by omega
    subst h
    simp [lookupLoop] at hrun
  | succ m ih =>
    intro n input extra hn hrun
    have h : ¬ (n + 1 > 100) := by omega
    rw [lookupLoop] at hrun
    simp only [h, if_false] at hrun
    cases hs : scanRegistries ops input rs with
    | none =>
      simp only [hs] at hrun
      cases hd : ops.isDirect input with
      | false => simp [hd] at hrun
      | true =>
        simp [hd] at hrun
        obtain ⟨h1, h2⟩ := hrun
        subst h1; subst h2
        exact ⟨0, [], by omega, rfl, hs, hd, by simp⟩
    | some e =>
      simp only [hs] at hrun
      cases hr : rewriteInput ops e input with
      | error w => simp [hr] at hrun
      | ok i2 =>
        simp only [hr] at hrun
        obtain ⟨k, es, hk, hc, hsx, hdx, ha⟩ := ih (n + 1) i2 e.extraAttrs (by omega) hrun
        refine ⟨k + 1, e :: es, by omega, ?_, hsx, hdx, ?_⟩
        · simp [rewriteChain, hs, hr, hc]
        · rw [getLast_extraAttrs_cons]; exact ha

theorem lookupLoop_of_chain_stop {I : Type} (ops : InputOps I) (rs : List (Registry I))
    (x : I) :
    ∀ (k m n : Nat) (input : I) (extra : Attrs) (es : List (Entry I)), n + m = 100 → k < m →
      rewriteChain ops rs k input = some (x, es) → scanRegistries ops x rs = none →
      lookupLoop ops rs (m + 1) n input extra =
        if !ops.isDirect x then .error (.cannotFind (ops.to_string x))
        else .ok x ((es.getLast?.map (fun e => e.extraAttrs)).getD extra) := by
  intro k
  induction k with
  | zero =>
    intro m n input extra es hn hk hc hsx
    simp [rewriteChain] at hc
    obtain ⟨h1, h2⟩ := hc
    subst h1; subst h2
    obtain ⟨m2, rfl⟩ : ∃ m2, m = m2 + 1 := ⟨m - 1, by omega⟩
    have h : ¬ (n + 1 > 100) := by omega
    rw [lookupLoop]
    simp only [h, if_false, hsx]
    simp
  | succ k ih =>
    intro m n input extra es hn hk hc hsx
    obtain ⟨m2, rfl⟩ : ∃ m2, m = m2 + 1 := ⟨m - 1, by omega⟩
    have h : ¬ (n + 1 > 100) := by omega
    rw [lookupLoop]
    simp only [h, if_false]
    rw [rewriteChain] at hc
    cases hs : scanRegistries ops input rs with
    | none => simp [hs] at hc
    | some e =>
      simp only [hs] at hc
      cases hr : rewriteInput ops e input with
      | error w => simp [hr] at hc
      | ok i2 =>
        simp only [hr] at hc
        cases hc2 : rewriteChain ops rs k i2 with
        | none => simp [hc2] at hc
        | some r =>
          simp [hc2] at hc
          obtain ⟨h1, h2⟩ := hc
          subst h1; subst h2
          simp only [hr]
          rw [ih m2 (n + 1) i2 e.extraAttrs r.2 (by omega) (by omega) hc2 hsx,
            getLast_extraAttrs_cons]

theorem lookupLoop_ne_outOfFuel {I : Type} (ops : InputOps I) (rs : List (Registry I)) :
    ∀ (m n : Nat) (input : I) (extra : Attrs), n + m = 100 →
      lookupLoop ops rs (m + 1) n input extra ≠ .outOfFuel := by
  intro m
  induction m with
  | zero =>
    intro n input extra hn
    have h : n = 100 := by omega
    subst h
    simp [lookupLoop]
  | succ m ih =>
    intro n input extra hn
    have h : ¬ (n + 1 > 100) := by omega
    rw [lookupLoop]
    simp only [h, if_false]
    cases hs : scanRegistries ops input rs with
    | none =>
      simp only []
      cases ops.isDirect input <;> simp
    | some e =>
      simp only []
      cases hr : rewriteInput ops e input with
      | error w => simp
      | ok i2 => exact ih (n + 1) i2 e.extraAttrs (by omega)

theorem scanRegistries_eq_none_iff {I : Type} (ops : InputOps I) (input : I)
    (rs : List (Registry I)) :
    scanRegistries ops input rs = none ↔
      ∀ r ∈ rs, ∀ e ∈ r.entries, ops.contains e.from_ input = false := by
  rw [scanRegistries_eq_find, List.find?_eq_none]
  simp only [List.mem_flatMap, Bool.not_eq_true]
  constructor
  · intro h r hr e he
    exact h e ⟨r, hr, he⟩
  · rintro h e ⟨r, hr, he⟩
    exact h r hr e he

theorem removeLoop_eq_filter {I : Type} (ops : InputOps I) (input : I) :
    ∀ (fuel i : Nat) (entries : List (Entry I)), entries.length - i < fuel →
      Registry.removeLoop ops input fuel i entries =
        some (entries.take i ++ (entries.drop i).filter (fun e => !ops.eq e.from_ input)) := by
  intro fuel
  induction fuel with
  | zero => intro i entries h; omega
  | succ fuel ih =>
    intro i entries h
    rw [Registry.removeLoop]
    cases hg : entries[i]? with
    | none =>
      have hle : entries.length ≤ i := List.getElem?_eq_none_iff.mp hg
      simp [List.take_of_length_le hle, List.drop_of_length_le hle]
    | some e =>
      obtain ⟨hlt, he⟩ := List.getElem?_eq_some_iff.mp hg
      have hd : entries.drop i = e :: entries.drop (i + 1) := by
        rw [List.drop_eq_getElem_cons hlt, he]
      simp only []
      by_cases hq : ops.eq e.from_ input = true
      · simp only [hq, if_true]
        have hlen : (entries.eraseIdx i).length - i < fuel := by
          rw [List.length_eraseIdx_of_lt hlt]; omega
        rw [ih i (entries.eraseIdx i) hlen, hd, List.eraseIdx_eq_take_drop_succ]
        have hti : (entries.take i).length = i := by
          rw [List.length_take]; omega
        rw [List.take_left' hti, List.drop_left' hti]
        simp [hq]
      · simp only [hq, if_false]
        have hlen : entries.length - (i + 1) < fuel := by omega
        rw [ih (i + 1) entries hlen, hd, List.take_succ, hg]
        simp [hq]

/-! ## Forcing engine -/

/-- C1: when the `eval` hook of a Thunk `v` (expression `e`, environment `env`)
raises `err`, whatever it wrote into the heap before (state `s2` at the throw),
`forceValue` raises the same `err`, and afterwards `v` is the Thunk of `e` and
`env` again, exactly as before the call; the other cells and the log are as the
hook left them. -/
theorem forceValue_thunk_error_restores (X : Hooks) (fuel : Nat) (s s2 : State) (v : Ref)
    (pos : Pos) (e : Expr) (env : Env) (err : Error)
    (hv : s.values v = ⟨.tThunk, .thunk env e⟩)
    (hhook : X.eval e (reentrant X fuel) env v
      ((s.setType v .tBlackhole).record (.eval e env v)) = .error err s2) :
    ∃ s3, forceValue X fuel v pos s = .error err s3 ∧
      s3.values v = ⟨.tThunk, .thunk env e⟩ ∧ s3.values v = s.values v ∧
      (∀ w, w ≠ v → s3.values w = s2.values w) ∧ s3.trace = s2.trace := by
  refine ⟨((s2.setType v .tThunk).setThunkEnv v env).setThunkExpr v e, ?_, ?_, ?_, ?_, ?_⟩
  · rw [forceValue_thunk_unfold X fuel s v pos e env hv, hhook]
  · exact restore_values_self s2 v env e
  · rw [hv]; exact restore_values_self s2 v env e
  · intro w hw; exact restore_values_other s2 v w env e hw
  · exact restore_trace s2 v env e

/-- Witness for C1: a Thunk whose hook overwrites it with the integer 42 and then
throws is a Thunk with the same expression and environment after the call. -/
theorem forceValue_thunk_error_restores_witness :
    ∃ s3, forceValue failingHooks 0 5 pos1 (State.const ⟨.tThunk, .thunk 1 2⟩)
        = .error (.other "assertion failed") s3 ∧
      s3.values 5 = ⟨.tThunk, .thunk 1 2⟩ ∧
      s3.values 5 = (State.const ⟨.tThunk, .thunk 1 2⟩).values 5 ∧
      (∀ w, w ≠ 5 → s3.values w =
        ((((State.const ⟨.tThunk, .thunk 1 2⟩).setType 5 .tBlackhole).record
          (.eval 2 1 5)).setValue 5 ⟨.tInt, .integer 42⟩).values w) ∧
      s3.trace = ((((State.const ⟨.tThunk, .thunk 1 2⟩).setType 5 .tBlackhole).record
          (.eval 2 1 5)).setValue 5 ⟨.tInt, .integer 42⟩).trace :=
  forceValue_thunk_error_restores failingHooks 0 (State.const ⟨.tThunk, .thunk 1 2⟩)
    _ 5 pos1 2 1 (.other "assertion failed") rfl rfl

/-- C2: forcing a Blackhole value fails with the infinite-recursion `EvalError`
whose error position is exactly `pos`; the state at the throw is the state before
the call, so `v` is unchanged and no hook invocation was logged, whatever the
hooks are. -/
theorem forceValue_blackhole (X : Hooks) (fuel : Nat) (s : State) (v : Ref) (pos : Pos)
    (hv : (s.values v).type = .tBlackhole) :
    forceValue X fuel v pos s =
      .error (.EvalError ⟨"infinite recursion encountered (tBlackhole in forceValue)", []⟩
        (some pos)) s :=
  forceValue_blackhole_eq X fuel s v pos hv

/-- Witness for C2 on a heap of Blackhole cells. -/
theorem forceValue_blackhole_witness :
    forceValue failingHooks 3 0 pos1 (State.const ⟨.tBlackhole, .thunk 1 2⟩) =
      .error (.EvalError ⟨"infinite recursion encountered (tBlackhole in forceValue)", []⟩
        (some pos1)) (State.const ⟨.tBlackhole, .thunk 1 2⟩) :=
  forceValue_blackhole failingHooks 3 (State.const ⟨.tBlackhole, .thunk 1 2⟩) 0 pos1 rfl

/-- C3: forcing a Concrete value returns normally with the state (heap and hook
log) identical, for any hooks and any fuel; so forcing twice equals forcing
once. -/
theorem forceValue_concrete_noop (X : Hooks) (fuel : Nat) (s : State) (v : Ref) (pos : Pos)
    (hv : (s.values v).type.isConcrete = true) :
    forceValue X fuel v pos s = .ok () s ∧
    (match forceValue X fuel v pos s with
      | .ok _ s1 => forceValue X fuel v pos s1
      | r => r) = forceValue X fuel v pos s := by
  have h := forceValue_concrete_eq X fuel s v pos hv
  refine ⟨h, ?_⟩
  rw [h]
  simp only []
  exact h

/-- Witness for C3 on a heap of integer cells. -/
theorem forceValue_concrete_noop_witness :
    forceValue failingHooks 0 0 pos1 (State.const ⟨.tInt, .integer 7⟩)
      = .ok () (State.const ⟨.tInt, .integer 7⟩) ∧
    (match forceValue failingHooks 0 0 pos1 (State.const ⟨.tInt, .integer 7⟩) with
      | .ok _ s1 => forceValue failingHooks 0 0 pos1 s1
      | r => r) = forceValue failingHooks 0 0 pos1 (State.const ⟨.tInt, .integer 7⟩) :=
  forceValue_concrete_noop failingHooks 0 (State.const ⟨.tInt, .integer 7⟩) 0 pos1 rfl

/-- C4: if the hook of a deferred value `v` (Thunk, LazyBinOp or Application),
invoked once by `forceValue` on the state with that one invocation logged,
returns normally in state `s2` where `v` is Concrete, then `forceValue` returns
normally in exactly `s2` (so `v` is what the hook wrote), and any further
`forceValue` on `v` returns normally with `s2` unchanged, hook log included. -/
theorem forceValue_deferred_once (X : Hooks) (fuel fuel2 : Nat) (s s2 : State) (v : Ref)
    (pos pos2 : Pos) (hc : (s2.values v).type.isConcrete = true) :
    (∀ e env, s.values v = ⟨.tThunk, .thunk env e⟩ →
      X.eval e (reentrant X fuel) env v
        ((s.setType v .tBlackhole).record (.eval e env v)) = .ok () s2 →
      forceValue X fuel v pos s = .ok () s2 ∧ forceValue X fuel2 v pos2 s2 = .ok () s2) ∧
    (∀ p, s.values v = ⟨.tLazyBinOp, .lazyBinOp p⟩ →
      X.evalLazyBinOp p.expr (reentrant X fuel) p.env p.left p.right v
        (s.record (.evalLazyBinOp p.expr p.env p.left p.right v)) = .ok () s2 →
      forceValue X fuel v pos s = .ok () s2 ∧ forceValue X fuel2 v pos2 s2 = .ok () s2) ∧
    (∀ l r, s.values v = ⟨.tApp, .app l r⟩ →
      X.callFunction (reentrant X fuel) l r v noPos
        (s.record (.callFunction l r v noPos)) = .ok () s2 →
      forceValue X fuel v pos s = .ok () s2 ∧ forceValue X fuel2 v pos2 s2 = .ok () s2) := by
  have h2 := forceValue_concrete_eq X fuel2 s2 v pos2 hc
  refine ⟨?_, ?_, ?_⟩
  · intro e env hv hhook
    refine ⟨?_, h2⟩
    rw [forceValue_thunk_unfold X fuel s v pos e env hv, hhook]
  · intro p hv hhook
    refine ⟨?_, h2⟩
    simp [forceValue, forceValueBody, hv, Payload.getLazyBinOp, hhook]
  · intro l r hv hhook
    refine ⟨?_, h2⟩
    simp [forceValue, forceValueBody, hv, Payload.appLeft, Payload.appRight, hhook]

/-- Witness for C4: the deferred `1 + 2` is forced to the integer 3 with one
`evalLazyBinOp` invocation logged; forcing again changes nothing. -/
theorem forceValue_deferred_once_witness :
    (forceValue addHooks 1 0 pos1 sumState
        = .ok () ((sumState.record (.evalLazyBinOp 9 0 1 2 0)).setValue 0 ⟨.tInt, .integer 3⟩) ∧
      forceValue addHooks 1 0 pos1
          ((sumState.record (.evalLazyBinOp 9 0 1 2 0)).setValue 0 ⟨.tInt, .integer 3⟩)
        = .ok () ((sumState.record (.evalLazyBinOp 9 0 1 2 0)).setValue 0 ⟨.tInt, .integer 3⟩)) ∧
    ((sumState.record (.evalLazyBinOp 9 0 1 2 0)).setValue 0 ⟨.tInt, .integer 3⟩).values 0
      = ⟨.tInt, .integer 3⟩ ∧
    ((sumState.record (.evalLazyBinOp 9 0 1 2 0)).setValue 0 ⟨.tInt, .integer 3⟩).trace
      = [.evalLazyBinOp 9 0 1 2 0] :=
  ⟨(forceValue_deferred_once addHooks 1 1 sumState
      ((sumState.record (.evalLazyBinOp 9 0 1 2 0)).setValue 0 ⟨.tInt, .integer 3⟩)
      0 pos1 pos1 rfl).2.1 ⟨9, 0, 1, 2⟩ rfl rfl, rfl, rfl⟩

/-- C5: for a Thunk `v`, the `eval` hook runs on a state in which `v` already
carries the Blackhole tag (payload untouched), with the saved environment.  Hence a
nested `forceValue(v, p)` made by the hook in any state where `v` is still
Blackhole fails with the infinite-recursion error at `p`, and when the hook lets
that error propagate the outer `forceValue` fails with it and `v` is the Thunk
again. -/
theorem forceValue_thunk_blackhole_first (X : Hooks) (fuel : Nat) (s : State) (v : Ref)
    (pos p : Pos) (e : Expr) (env : Env)
    (hv : s.values v = ⟨.tThunk, .thunk env e⟩) :
    (forceValue X (fuel + 1) v pos s =
      match X.eval e (reentrant X (fuel + 1)) env v
          ((s.setType v .tBlackhole).record (.eval e env v)) with
      | .ok a s2 => .ok a s2
      | .error err s2 =>
        .error err (((s2.setType v .tThunk).setThunkEnv v env).setThunkExpr v e)
      | .outOfFuel => .outOfFuel) ∧
    ((s.setType v .tBlackhole).record (.eval e env v)).values v
      = ⟨.tBlackhole, .thunk env e⟩ ∧
    (∀ s1, (s1.values v).type = .tBlackhole →
      (reentrant X (fuel + 1)).forceValue v p s1 = .error (infiniteRecursion p) s1) ∧
    (∀ s2, X.eval e (reentrant X (fuel + 1)) env v
        ((s.setType v .tBlackhole).record (.eval e env v))
          = .error (infiniteRecursion p) s2 →
      ∃ s3, forceValue X (fuel + 1) v pos s = .error (infiniteRecursion p) s3 ∧
        s3.values v = ⟨.tThunk, .thunk env e⟩) := by
  refine ⟨forceValue_thunk_unfold X (fuel + 1) s v pos e env hv, ?_, ?_, ?_⟩
  · simp [State.setType, State.record, hv]
  · intro s1 h1
    exact forceValue_blackhole_eq X fuel s1 v p h1
  · intro s2 hhook
    refine ⟨((s2.setType v .tThunk).setThunkEnv v env).setThunkExpr v e, ?_, ?_⟩
    · rw [forceValue_thunk_unfold X (fuel + 1) s v pos e env hv, hhook]
    · exact restore_values_self s2 v env e

/-- Witness for C5: a Thunk whose hook forces the Thunk itself before writing
fails with the infinite-recursion error of the nested call and is a Thunk again. -/
theorem forceValue_thunk_blackhole_first_witness :
    ∃ s3, forceValue selfForcingHooks 1 0 noPos (State.const ⟨.tThunk, .thunk 1 2⟩)
        = .error (infiniteRecursion pos1) s3 ∧
      s3.values 0 = ⟨.tThunk, .thunk 1 2⟩ :=
  (forceValue_thunk_blackhole_first selfForcingHooks 0 (State.const ⟨.tThunk, .thunk 1 2⟩)
    0 noPos pos1 2 1 rfl).2.2.2 _ rfl

/-- C6: a nested `forceValue(v, p)` made by the hook in a state where `v` already
holds a Concrete variant returns normally with the state unchanged (no
infinite-recursion error, no hook invocation logged); and when the `eval` hook of
a Thunk `v` overwrites `v` with a Concrete value `c`, then forces `v`, then runs
to normal completion (`rest`), the outer `forceValue` completes normally. -/
theorem forceValue_escape_hatch (X : Hooks) (fuel : Nat) (s : State) (v : Ref)
    (pos p : Pos) (e : Expr) (env : Env) (c : Value) (rest : State → State)
    (hv : s.values v = ⟨.tThunk, .thunk env e⟩)
    (hc : c.type.isConcrete = true)
    (hhook : X.eval e (reentrant X (fuel + 1)) env v
        ((s.setType v .tBlackhole).record (.eval e env v)) =
      match (reentrant X (fuel + 1)).forceValue v p
          (((s.setType v .tBlackhole).record (.eval e env v)).setValue v c) with
      | .ok _ s1 => .ok () (rest s1)
      | .error err s1 => .error err s1
      | .outOfFuel => .outOfFuel) :
    (reentrant X (fuel + 1)).forceValue v p
        (((s.setType v .tBlackhole).record (.eval e env v)).setValue v c)
      = .ok () (((s.setType v .tBlackhole).record (.eval e env v)).setValue v c) ∧
    forceValue X (fuel + 1) v pos s
      = .ok () (rest (((s.setType v .tBlackhole).record (.eval e env v)).setValue v c)) := by
  have hn : (reentrant X (fuel + 1)).forceValue v p
        (((s.setType v .tBlackhole).record (.eval e env v)).setValue v c)
      = .ok () (((s.setType v .tBlackhole).record (.eval e env v)).setValue v c) := by
    apply forceValue_concrete_eq X fuel _ v p
    simpa [State.setValue] using hc
  refine ⟨hn, ?_⟩
  rw [forceValue_thunk_unfold X (fuel + 1) s v pos e env hv, hhook, hn]

/-- Witness for C6: a Thunk whose hook first makes it an empty attribute set and
then forces it again is forced without error. -/
theorem forceValue_escape_hatch_witness :
    (reentrant selfUpdatingHooks 1).forceValue 0 pos1
        ((((State.const ⟨.tThunk, .thunk 1 2⟩).setType 0 .tBlackhole).record
          (.eval 2 1 0)).setValue 0 ⟨.tAttrs, .attrs []⟩)
      = .ok () ((((State.const ⟨.tThunk, .thunk 1 2⟩).setType 0 .tBlackhole).record
          (.eval 2 1 0)).setValue 0 ⟨.tAttrs, .attrs []⟩) ∧
    forceValue selfUpdatingHooks 1 0 noPos (State.const ⟨.tThunk, .thunk 1 2⟩)
      = .ok () (id ((((State.const ⟨.tThunk, .thunk 1 2⟩).setType 0 .tBlackhole).record
          (.eval 2 1 0)).setValue 0 ⟨.tAttrs, .attrs []⟩)) :=
  forceValue_escape_hatch selfUpdatingHooks 0 (State.const ⟨.tThunk, .thunk 1 2⟩) 0 noPos
    pos1 2 1 ⟨.tAttrs, .attrs []⟩ id rfl rfl rfl

/-- Counterexample to C7: the `eval` hook of this Thunk writes a deferred binary
operation into its target and returns; `forceValue` returns normally and the
value's tag is LazyBinOp, not a Concrete variant. -/
theorem forceValue_ok_deferred_counterexample :
    forceValue deferringHooks 0 0 noPos (State.const ⟨.tThunk, .thunk 1 2⟩)
      = .ok () ((((State.const ⟨.tThunk, .thunk 1 2⟩).setType 0 .tBlackhole).record
          (.eval 2 1 0)).setValue 0 ⟨.tLazyBinOp, .lazyBinOp ⟨2, 1, 1, 2⟩⟩) ∧
    (((((State.const ⟨.tThunk, .thunk 1 2⟩).setType 0 .tBlackhole).record
          (.eval 2 1 0)).setValue 0 ⟨.tLazyBinOp, .lazyBinOp ⟨2, 1, 1, 2⟩⟩).values 0).type
      = .tLazyBinOp ∧
    ValueType.isConcrete .tLazyBinOp = false :=
  ⟨rfl, rfl, rfl⟩

/-- C7 (amended): if `forceValue(v, pos)` returns normally, and the one hook it
invokes for `v` (none when `v` is Concrete) leaves `v` with a Concrete tag
whenever it returns normally, then `v`'s tag afterwards is Concrete.  `forceValue`
never returns normally on a Blackhole. -/
theorem forceValue_ok_concrete (X : Hooks) (fuel : Nat) (s s2 : State) (v : Ref) (pos : Pos)
    (hEval : ∀ st, (s.values v).type = .tThunk →
      X.eval (s.values v).payload.thunkExpr (reentrant X fuel)
        (s.values v).payload.thunkEnv v
        ((s.setType v .tBlackhole).record
          (.eval (s.values v).payload.thunkExpr (s.values v).payload.thunkEnv v))
        = .ok () st →
      (st.values v).type.isConcrete = true)
    (hBinOp : ∀ st, (s.values v).type = .tLazyBinOp →
      X.evalLazyBinOp (s.values v).payload.getLazyBinOp.expr (reentrant X fuel)
        (s.values v).payload.getLazyBinOp.env (s.values v).payload.getLazyBinOp.left
        (s.values v).payload.getLazyBinOp.right v
        (s.record (.evalLazyBinOp (s.values v).payload.getLazyBinOp.expr
          (s.values v).payload.getLazyBinOp.env (s.values v).payload.getLazyBinOp.left
          (s.values v).payload.getLazyBinOp.right v))
        = .ok () st →
      (st.values v).type.isConcrete = true)
    (hApp : ∀ st, (s.values v).type = .tApp →
      X.callFunction (reentrant X fuel) (s.values v).payload.appLeft
        (s.values v).payload.appRight v noPos
        (s.record (.callFunction (s.values v).payload.appLeft
          (s.values v).payload.appRight v noPos))
        = .ok () st →
      (st.values v).type.isConcrete = true)
    (hrun : forceValue X fuel v pos s = .ok () s2) :
    (s2.values v).type.isConcrete = true ∧ (s.values v).type ≠ .tBlackhole := by
  unfold forceValue forceValueBody at hrun
  by_cases h1 : (s.values v).type = .tThunk
  · simp only [h1, if_true] at hrun
    refine ⟨hEval s2 h1 ?_, by simp [h1]⟩
    revert hrun
    cases X.eval (s.values v).payload.thunkExpr (reentrant X fuel)
        (s.values v).payload.thunkEnv v
        ((s.setType v .tBlackhole).record
          (.eval (s.values v).payload.thunkExpr (s.values v).payload.thunkEnv v)) with
    | ok a st => intro hrun; simp at hrun; simp [hrun]
    | error err st => intro hrun; simp at hrun
    | outOfFuel => intro hrun; simp at hrun
  · by_cases h2 : (s.values v).type = .tLazyBinOp
    · simp only [h1, h2, if_true, if_false] at hrun
      simp at hrun
      exact ⟨hBinOp s2 h2 hrun, by simp [h2]⟩
    · by_cases h3 : (s.values v).type = .tApp
      · simp only [h1, h2, h3, if_true, if_false] at hrun
        simp at hrun
        exact ⟨hApp s2 h3 hrun, by simp [h3]⟩
      · by_cases h4 : (s.values v).type = .tBlackhole
        · simp [h4, throwEvalError] at hrun
        · simp only [h1, h2, h3, h4, if_false] at hrun
          simp at hrun
          subst hrun
          exact ⟨by simp [ValueType.isConcrete, h1, h2, h3, h4], h4⟩

/-- Witness for C7 (amended): forcing the deferred `1 + 2`, whose hook writes an
integer, leaves an integer. -/
theorem forceValue_ok_concrete_witness :
    ((((sumState.record (.evalLazyBinOp 9 0 1 2 0)).setValue 0
        ⟨.tInt, .integer 3⟩).values 0).type.isConcrete = true) ∧
    (sumState.values 0).type ≠ .tBlackhole :=
  forceValue_ok_concrete addHooks 1 sumState
    ((sumState.record (.evalLazyBinOp 9 0 1 2 0)).setValue 0 ⟨.tInt, .integer 3⟩) 0 pos1
    (fun _ h => absurd h (by decide))
    (fun st _ h => by
      have h2 : (Res.ok () ((sumState.record (.evalLazyBinOp 9 0 1 2 0)).setValue 0
          ⟨.tInt, .integer 3⟩) : Res Unit) = .ok () st := h
      cases h2
      rfl)
    (fun _ h => absurd h (by decide))
    rfl

/-! ## Typed forcing -/

/-- C8: `forceAttrs(v)` and `forceAttrs(v, pos)` run `forceValue` first (at `noPos`,
resp. `pos`); an error of `forceValue` is the error of `forceAttrs`; when
`forceValue` returns in state `s1`, `forceAttrs` returns normally if the tag of
`v` in `s1` is `tAttrs`, and otherwise throws the `TypeError` with format
"value is %1% while a set was expected" applied to `showType` of the forced value
(with error position `pos` in the positioned variant). -/
theorem forceAttrs_spec (X : Hooks) (O : ValueOps) (fuel : Nat) (s : State) (v : Ref)
    (pos : Pos) :
    ((∀ e s1, forceValue X fuel v noPos s = .error e s1 →
        forceAttrs X O fuel v s = .error e s1) ∧
      (∀ s1, forceValue X fuel v noPos s = .ok () s1 →
        ((s1.values v).type = .tAttrs → forceAttrs X O fuel v s = .ok () s1) ∧
        ((s1.values v).type ≠ .tAttrs → forceAttrs X O fuel v s =
          .error (.TypeError ⟨"value is %1% while a set was expected",
            [O.showType (s1.values v)]⟩ none) s1))) ∧
    ((∀ e s1, forceValue X fuel v pos s = .error e s1 →
        forceAttrsAt X O fuel v pos s = .error e s1) ∧
      (∀ s1, forceValue X fuel v pos s = .ok () s1 →
        ((s1.values v).type = .tAttrs → forceAttrsAt X O fuel v pos s = .ok () s1) ∧
        ((s1.values v).type ≠ .tAttrs → forceAttrsAt X O fuel v pos s =
          .error (.TypeError ⟨"value is %1% while a set was expected",
            [O.showType (s1.values v)]⟩ (some pos)) s1))) := by
  refine ⟨⟨?_, ?_⟩, ⟨?_, ?_⟩⟩
  · intro e s1 h
    simp [forceAttrs, h]
  · intro s1 h
    constructor
    · intro ht; simp [forceAttrs, h, ht]
    · intro ht; simp [forceAttrs, h, ht, throwTypeError]
  · intro e s1 h
    simp [forceAttrsAt, h]
  · intro s1 h
    constructor
    · intro ht; simp [forceAttrsAt, h, ht]
    · intro ht; simp [forceAttrsAt, h, ht, throwTypeErrorAt]

/-- Witness for C8: `forceAttrs` at `pos1` on a Thunk that evaluates to a list
throws the `TypeError` naming the list type. -/
theorem forceAttrs_spec_witness :
    forceAttrsAt listHooks defaultOps 0 0 pos1 (State.const ⟨.tThunk, .thunk 1 2⟩) =
      .error (.TypeError ⟨"value is %1% while a set was expected", ["a list"]⟩ (some pos1))
        ((((State.const ⟨.tThunk, .thunk 1 2⟩).setType 0 .tBlackhole).record
          (.eval 2 1 0)).setValue 0 ⟨.tList, .list []⟩) :=
  ((forceAttrs_spec listHooks defaultOps 0 (State.const ⟨.tThunk, .thunk 1 2⟩) 0 pos1).2.2
    ((((State.const ⟨.tThunk, .thunk 1 2⟩).setType 0 .tBlackhole).record
          (.eval 2 1 0)).setValue 0 ⟨.tList, .list []⟩) rfl).2 (by decide)

/-- C9: `forceList(v)` and `forceList(v, pos)` run `forceValue` first (at `noPos`,
resp. `pos`); when `forceValue` returns in state `s1`, `forceList` returns
normally if `isList` holds of the tag of `v` in `s1`, and otherwise throws the
`TypeError` with format "value is %1% while a list was expected" applied to
`showType` of the forced value (with error position `pos` in the positioned
variant); an error of `forceValue` is passed on. -/
theorem forceList_spec (X : Hooks) (O : ValueOps) (fuel : Nat) (s : State) (v : Ref)
    (pos : Pos) :
    ((∀ e s1, forceValue X fuel v noPos s = .error e s1 →
        forceList X O fuel v s = .error e s1) ∧
      (∀ s1, forceValue X fuel v noPos s = .ok () s1 →
        (O.isList (s1.values v).type = true → forceList X O fuel v s = .ok () s1) ∧
        (O.isList (s1.values v).type = false → forceList X O fuel v s =
          .error (.TypeError ⟨"value is %1% while a list was expected",
            [O.showType (s1.values v)]⟩ none) s1))) ∧
    ((∀ e s1, forceValue X fuel v pos s = .error e s1 →
        forceListAt X O fuel v pos s = .error e s1) ∧
      (∀ s1, forceValue X fuel v pos s = .ok () s1 →
        (O.isList (s1.values v).type = true → forceListAt X O fuel v pos s = .ok () s1) ∧
        (O.isList (s1.values v).type = false → forceListAt X O fuel v pos s =
          .error (.TypeError ⟨"value is %1% while a list was expected",
            [O.showType (s1.values v)]⟩ (some pos)) s1))) := by
  refine ⟨⟨?_, ?_⟩, ⟨?_, ?_⟩⟩
  · intro e s1 h
    simp [forceList, h]
  · intro s1 h
    constructor
    · intro ht; simp [forceList, h, ht]
    · intro ht; simp [forceList, h, ht, throwTypeError]
  · intro e s1 h
    simp [forceListAt, h]
  · intro s1 h
    constructor
    · intro ht; simp [forceListAt, h, ht]
    · intro ht; simp [forceListAt, h, ht, throwTypeErrorAt]

/-- Witness for C9: `forceList` on the deferred `1 + 2` throws the `TypeError`
naming the integer type, and on a Thunk that evaluates to a list it returns. -/
theorem forceList_spec_witness :
    forceList addHooks defaultOps 1 0 sumState =
      .error (.TypeError ⟨"value is %1% while a list was expected", ["an integer"]⟩ none)
        ((sumState.record (.evalLazyBinOp 9 0 1 2 0)).setValue 0 ⟨.tInt, .integer 3⟩) ∧
    forceListAt listHooks defaultOps 0 0 pos1 (State.const ⟨.tThunk, .thunk 1 2⟩) =
      .ok () ((((State.const ⟨.tThunk, .thunk 1 2⟩).setType 0 .tBlackhole).record
          (.eval 2 1 0)).setValue 0 ⟨.tList, .list []⟩) :=
  ⟨((forceList_spec addHooks defaultOps 1 sumState 0 pos1).1.2
      ((sumState.record (.evalLazyBinOp 9 0 1 2 0)).setValue 0 ⟨.tInt, .integer 3⟩)
      rfl).2 rfl,
   ((forceList_spec listHooks defaultOps 0 (State.const ⟨.tThunk, .thunk 1 2⟩) 0 pos1).2.2
      ((((State.const ⟨.tThunk, .thunk 1 2⟩).setType 0 .tBlackhole).record
          (.eval 2 1 0)).setValue 0 ⟨.tList, .list []⟩) rfl).1 rfl⟩

/-! ## Attribute resolution -/

/-- C10: on a value with a Concrete tag, `evalValueAttr` returns normally with the
state (heap and hook log) unchanged, for any hooks: the result is the entry found
under `name` when the tag is `tAttrs`, and "not found" for an attribute set
without `name` and for every other Concrete tag. -/
theorem evalValueAttr_concrete (X : Hooks) (fuel : Nat) (s : State) (v : Ref)
    (name : Symbol) (pos : Pos) (hv : (s.values v).type.isConcrete = true) :
    (∃ r, evalValueAttr X fuel v name pos s = .ok r s) ∧
    (∀ b a, s.values v = ⟨.tAttrs, .attrs b⟩ → a ∈ b → a.name = name →
      (∀ a2 ∈ b, a2.name = name → a2 = a) →
      evalValueAttr X fuel v name pos s = .ok (some a) s) ∧
    (∀ b, s.values v = ⟨.tAttrs, .attrs b⟩ → (∀ a ∈ b, a.name ≠ name) →
      evalValueAttr X fuel v name pos s = .ok none s) ∧
    ((s.values v).type ≠ .tAttrs → evalValueAttr X fuel v name pos s = .ok none s) := by
  refine ⟨?_, ?_, ?_, ?_⟩
  · unfold evalValueAttr evalValueAttrBody
    cases ht : (s.values v).type <;> simp [ValueType.isConcrete, ht] at hv <;> simp
    cases (s.values v).payload.getAttrs.find name <;> simp
  · intro b a hb ha hn huniq
    unfold evalValueAttr evalValueAttrBody
    simp only [hb, Payload.getAttrs, Bindings.find]
    cases hf : List.find? (fun a => a.name == name) b with
    | none =>
      have := List.find?_eq_none.mp hf a ha
      simp [hn] at this
    | some j =>
      have hj := List.find?_some hf
      have hm := List.mem_of_find?_eq_some hf
      simp at hj
      simp [huniq j hm hj]
  · intro b hb hnone
    unfold evalValueAttr evalValueAttrBody
    simp only [hb, Payload.getAttrs, Bindings.find]
    have hf : List.find? (fun a => a.name == name) b = none := by
      rw [List.find?_eq_none]
      intro a ha
      simpa using hnone a ha
    simp [hf]
  · intro ht
    unfold evalValueAttr evalValueAttrBody
    cases h : (s.values v).type <;> simp [ValueType.isConcrete, h] at hv ht <;> simp

/-- Witness for C10: looking up `c` in the set with entries `a` and `b` returns
"not found" without error, and looking up `b` returns its entry. -/
theorem evalValueAttr_concrete_witness :
    evalValueAttr failingHooks 0 0 "c" pos1 attrsState = .ok none attrsState ∧
    evalValueAttr failingHooks 0 0 "b" pos1 attrsState = .ok (some ⟨"b", 2, pos1⟩) attrsState :=
  ⟨(evalValueAttr_concrete failingHooks 0 attrsState 0 "c" pos1 rfl).2.2.1 _ rfl
      (by simp),
   (evalValueAttr_concrete failingHooks 0 attrsState 0 "b" pos1 rfl).2.1 _ ⟨"b", 2, pos1⟩ rfl
      (by simp) rfl (by simp)⟩

/-- C11: on a Blackhole value `evalValueAttr` throws the infinite-recursion
`EvalError` with error position `pos`; no entry is returned, and the state at the
throw is the state before the call (value unchanged, no hook invocation logged),
whatever the hooks are. -/
theorem evalValueAttr_blackhole (X : Hooks) (fuel : Nat) (s : State) (v : Ref)
    (name : Symbol) (pos : Pos) (hv : (s.values v).type = .tBlackhole) :
    evalValueAttr X fuel v name pos s =
      .error (.EvalError ⟨"infinite recursion encountered (tBlackhole in evalValueAttr)", []⟩
        (some pos)) s := by
  simp [evalValueAttr, evalValueAttrBody, hv, throwEvalError]

/-- Witness for C11 on a heap of Blackhole cells. -/
theorem evalValueAttr_blackhole_witness :
    evalValueAttr shortcutHooks 2 0 "a" pos1 (State.const ⟨.tBlackhole, .thunk 1 2⟩) =
      .error (.EvalError ⟨"infinite recursion encountered (tBlackhole in evalValueAttr)", []⟩
        (some pos1)) (State.const ⟨.tBlackhole, .thunk 1 2⟩) :=
  evalValueAttr_blackhole shortcutHooks 2 (State.const ⟨.tBlackhole, .thunk 1 2⟩) 0 "a" pos1
    rfl

/-- C12: on a Thunk (resp. LazyBinOp) `evalValueAttr` is exactly the `evalAttr`
(resp. `evalLazyBinOpAttr`) hook: same result and final state.  The hook runs on
the state in which `v` still has its deferred tag and payload (no Blackhole is
written) and only that one invocation has been logged; with hooks that make no
re-entrant call (fuel 0) the outcome depends on the attribute hook alone, so the
full-evaluation hooks are not invoked by `evalValueAttr` itself. -/
theorem evalValueAttr_deferred_delegates (X X2 : Hooks) (fuel : Nat) (s : State) (v : Ref)
    (name : Symbol) (pos : Pos) :
    (∀ e env, s.values v = ⟨.tThunk, .thunk env e⟩ →
      evalValueAttr X fuel v name pos s =
        X.evalAttr e (reentrant X fuel) env v name (s.record (.evalAttr e env v name)) ∧
      (s.record (.evalAttr e env v name)).values = s.values ∧
      (s.record (.evalAttr e env v name)).trace = s.trace ++ [.evalAttr e env v name] ∧
      (X2.evalAttr = X.evalAttr →
        evalValueAttr X2 0 v name pos s = evalValueAttr X 0 v name pos s)) ∧
    (∀ p, s.values v = ⟨.tLazyBinOp, .lazyBinOp p⟩ →
      evalValueAttr X fuel v name pos s =
        X.evalLazyBinOpAttr p.expr (reentrant X fuel) p.env p.left p.right name v
          (s.record (.evalLazyBinOpAttr p.expr p.env p.left p.right name v)) ∧
      (s.record (.evalLazyBinOpAttr p.expr p.env p.left p.right name v)).values
        = s.values ∧
      (s.record (.evalLazyBinOpAttr p.expr p.env p.left p.right name v)).trace
        = s.trace ++ [.evalLazyBinOpAttr p.expr p.env p.left p.right name v] ∧
      (X2.evalLazyBinOpAttr = X.evalLazyBinOpAttr →
        evalValueAttr X2 0 v name pos s = evalValueAttr X 0 v name pos s)) := by
  constructor
  · intro e env hv
    refine ⟨?_, rfl, rfl, ?_⟩
    · simp [evalValueAttr, evalValueAttrBody, hv, Payload.thunkEnv, Payload.thunkExpr]
    · intro h
      simp [evalValueAttr, evalValueAttrBody, hv, h, reentrant]
  · intro p hv
    refine ⟨?_, rfl, rfl, ?_⟩
    · simp [evalValueAttr, evalValueAttrBody, hv, Payload.getLazyBinOp]
    · intro h
      simp [evalValueAttr, evalValueAttrBody, hv, h, reentrant]

/-- Witness for C12: on a Thunk whose `evalAttr` hook answers directly, the
entry is returned, the value is still the Thunk, and the log holds the single
`evalAttr` invocation (no full evaluation). -/
theorem evalValueAttr_deferred_delegates_witness :
    evalValueAttr shortcutHooks 0 0 "a" pos1 (State.const ⟨.tThunk, .thunk 1 2⟩) =
      .ok (some ⟨"a", 1, pos1⟩)
        ((State.const ⟨.tThunk, .thunk 1 2⟩).record (.evalAttr 2 1 0 "a")) :=
  ((evalValueAttr_deferred_delegates shortcutHooks idleHooks 0
    (State.const ⟨.tThunk, .thunk 1 2⟩) 0 "a" pos1).1 2 1 rfl).1

/-- C13: with `callFunctionAttr` as modelled from the spec, `evalValueAttr` on an
Application `v` yields the same result and final state as `forceValue(v, pos)`
followed by `evalValueAttr(v, name, pos)`, both run after the `callFunctionAttr`
invocation has been logged. -/
theorem evalValueAttr_app (X : Hooks) (fuel : Nat) (s : State) (v l r : Ref)
    (name : Symbol) (pos : Pos)
    (hX : X.callFunctionAttr = callFunctionAttrSpec X.callFunction)
    (hv : s.values v = ⟨.tApp, .app l r⟩) :
    evalValueAttr X (fuel + 1) v name pos s =
      match forceValue X (fuel + 1) v pos (s.record (.callFunctionAttr l r v name pos)) with
      | .ok _ s1 => evalValueAttr X fuel v name pos s1
      | .error e s1 => .error e s1
      | .outOfFuel => .outOfFuel := by
  have hv2 : (s.record (.callFunctionAttr l r v name pos)).values v = ⟨.tApp, .app l r⟩ := hv
  have h1 : evalValueAttr X (fuel + 1) v name pos s =
      X.callFunctionAttr (reentrant X (fuel + 1)) l r v name pos
        (s.record (.callFunctionAttr l r v name pos)) := by
    simp [evalValueAttr, evalValueAttrBody, hv, Payload.appLeft, Payload.appRight]
  have h2 : forceValue X (fuel + 1) v pos (s.record (.callFunctionAttr l r v name pos)) =
      X.callFunction (reentrant X (fuel + 1)) l r v noPos
        ((s.record (.callFunctionAttr l r v name pos)).record
          (.callFunction l r v noPos)) := by
    simp [forceValue, forceValueBody, hv2, Payload.appLeft, Payload.appRight]
  rw [h1, h2, hX]
  rfl

/-- Witness for C13: the application whose call yields the set with entry `a`. -/
theorem evalValueAttr_app_witness :
    evalValueAttr applyHooks 1 0 "a" pos1 (State.const ⟨.tApp, .app 1 2⟩) =
      match forceValue applyHooks 1 0 pos1
          ((State.const ⟨.tApp, .app 1 2⟩).record (.callFunctionAttr 1 2 0 "a" pos1)) with
      | .ok _ s1 => evalValueAttr applyHooks 0 0 "a" pos1 s1
      | .error e s1 => .error e s1
      | .outOfFuel => .outOfFuel :=
  evalValueAttr_app applyHooks 0 (State.const ⟨.tApp, .app 1 2⟩) 0 1 2 "a" pos1 rfl rfl

/-- Counterexample to C16: the `evalLazyBinOp` hook of this deferred sum writes the
integer 42 into its target and then throws; `forceValue` fails with that error
and the value is left as the integer 42, not the LazyBinOp it was. -/
theorem forceValue_lazyBinOp_error_counterexample :
    forceValue dirtyFailingHooks 0 0 pos1 sumState =
      .error (.other "operand is not a number")
        ((sumState.record (.evalLazyBinOp 9 0 1 2 0)).setValue 0 ⟨.tInt, .integer 42⟩) ∧
    sumState.values 0 = ⟨.tLazyBinOp, .lazyBinOp ⟨9, 0, 1, 2⟩⟩ ∧
    ((sumState.record (.evalLazyBinOp 9 0 1 2 0)).setValue 0 ⟨.tInt, .integer 42⟩).values 0
      = ⟨.tInt, .integer 42⟩ :=
  ⟨rfl, rfl, rfl⟩

/-- C16 (amended): when the `evalLazyBinOp` hook of a LazyBinOp `v`, or
`callFunction` for an Application `v`, throws `err` in state `s2`, `forceValue`
throws `err` with the state exactly `s2`: it neither writes to `v` nor restores
it.  So `v` has the tag and payload it had before the call whenever the hook left
them untouched at the throw. -/
theorem forceValue_deferred_error_passthrough (X : Hooks) (fuel : Nat) (s s2 : State)
    (v : Ref) (pos : Pos) (err : Error) :
    (∀ p, s.values v = ⟨.tLazyBinOp, .lazyBinOp p⟩ →
      X.evalLazyBinOp p.expr (reentrant X fuel) p.env p.left p.right v
        (s.record (.evalLazyBinOp p.expr p.env p.left p.right v)) = .error err s2 →
      forceValue X fuel v pos s = .error err s2 ∧
      (s2.values v = s.values v →
        ∃ s3, forceValue X fuel v pos s = .error err s3 ∧ s3.values v = s.values v)) ∧
    (∀ l r, s.values v = ⟨.tApp, .app l r⟩ →
      X.callFunction (reentrant X fuel) l r v noPos
        (s.record (.callFunction l r v noPos)) = .error err s2 →
      forceValue X fuel v pos s = .error err s2 ∧
      (s2.values v = s.values v →
        ∃ s3, forceValue X fuel v pos s = .error err s3 ∧ s3.values v = s.values v)) := by
  constructor
  · intro p hv hhook
    have h : forceValue X fuel v pos s = .error err s2 := by
      simp [forceValue, forceValueBody, hv, Payload.getLazyBinOp, hhook]
    exact ⟨h, fun hs => ⟨s2, h, hs⟩⟩
  · intro l r hv hhook
    have h : forceValue X fuel v pos s = .error err s2 := by
      simp [forceValue, forceValueBody, hv, Payload.appLeft, Payload.appRight, hhook]
    exact ⟨h, fun hs => ⟨s2, h, hs⟩⟩

/-- Witness for C16 (amended): an Application whose call throws after overwriting
the target fails with the state exactly as the hook left it. -/
theorem forceValue_deferred_error_passthrough_witness :
    forceValue dirtyFailingHooks 0 0 pos1 (State.const ⟨.tApp, .app 1 2⟩) =
      .error (.other "not a function")
        (((State.const ⟨.tApp, .app 1 2⟩).record (.callFunction 1 2 0 noPos)).setValue 0
          ⟨.tInt, .integer 42⟩) :=
  ((forceValue_deferred_error_passthrough dirtyFailingHooks 0
    (State.const ⟨.tApp, .app 1 2⟩) _ 0 pos1 (.other "not a function")).2 1 2 rfl rfl).1

/-! ## Allocator facade -/

/-- C14: provided the memory source hands out zeroed blocks of the requested size
whenever it returns a non-null address, `allocBytes(n)` either returns a non-null
block of `n` zero bytes or throws `std::bad_alloc`, and it throws exactly when
the memory source (`GC_MALLOC(n)` or `calloc(n, 1)`) returns null. -/
theorem allocBytes_spec (gc : Bool) (M : MemorySource) (n : Nat)
    (hgc : (M.GC_MALLOC n).ptr ≠ 0 → (M.GC_MALLOC n).bytes = List.replicate n 0)
    (hcalloc : (M.calloc n 1).ptr ≠ 0 → (M.calloc n 1).bytes = List.replicate (n * 1) 0) :
    (allocBytes gc M n = .error .bad_alloc ↔
      (if gc then M.GC_MALLOC n else M.calloc n 1).ptr = 0) ∧
    (∀ p, allocBytes gc M n = .ok p →
      p.ptr ≠ 0 ∧ p.bytes = List.replicate n 0 ∧ p.bytes.length = n ∧
      p = (if gc then M.GC_MALLOC n else M.calloc n 1)) ∧
    (allocBytes gc M n = .error .bad_alloc ∨ ∃ p, allocBytes gc M n = .ok p) := by
  have hz : (if gc then M.GC_MALLOC n else M.calloc n 1).ptr ≠ 0 →
      (if gc then M.GC_MALLOC n else M.calloc n 1).bytes = List.replicate n 0 := by
    cases gc
    · simpa using hcalloc
    · simpa using hgc
  unfold allocBytes
  by_cases h0 : (if gc then M.GC_MALLOC n else M.calloc n 1).ptr = 0
  · simp [h0]
  · simp only [h0, if_false]
    refine ⟨by simp, ?_, by simp⟩
    intro p hp
    have hp2 : (if gc then M.GC_MALLOC n else M.calloc n 1) = p := by
      simpa using hp
    subst hp2
    exact ⟨h0, hz h0, by rw [hz h0]; simp, rfl⟩

/-- Witness for C14: a request the memory source cannot serve throws
`std::bad_alloc`, with either source. -/
theorem allocBytes_spec_witness :
    allocBytes true smallHeap 5000 = .error .bad_alloc ∧
    allocBytes false smallHeap 5000 = .error .bad_alloc :=
  ⟨(allocBytes_spec true smallHeap 5000 (by decide) (by decide)).1.mpr (by decide),
   (allocBytes_spec false smallHeap 5000 (by decide) (by decide)).1.mpr (by decide)⟩

/-! ## Registry lookup -/

/-- C15: `lookupInRegistries` always terminates within its 101 passes through
`restart`; it throws the cycle error, carrying the input reached, exactly when
100 successive rewrites apply (the input reached by the 100th is not scanned);
and when it returns normally fewer than 100 rewrites were applied. -/
theorem lookupInRegistries_bounded {I : Type} (ops : InputOps I) (rs : List (Registry I))
    (input : I) :
    lookupInRegistries ops rs input ≠ .outOfFuel ∧
    (∀ x, lookupInRegistries ops rs input = .error (.cycleDetected x) ↔
      ∃ es, rewriteChain ops rs 100 input = some (x, es)) ∧
    (∀ x a, lookupInRegistries ops rs input = .ok x a →
      ∃ k es, k < 100 ∧ rewriteChain ops rs k input = some (x, es)) := by
  refine ⟨lookupLoop_ne_outOfFuel ops rs 100 0 input [] rfl, ?_, ?_⟩
  · intro x
    exact lookupLoop_cycle_iff ops rs x 100 0 input [] rfl
  · intro x a h
    obtain ⟨k, es, hk, hc, _⟩ := lookupLoop_ok_chain ops rs x a 100 0 input [] rfl h
    exact ⟨k, es, hk, hc⟩

set_option maxRecDepth 20000

/-- Witness for C15: the registry `0 → 1 → ⋯ → 100` has no cycle, yet the lookup
of 0 throws the cycle error at input 100, which no entry matches. -/
theorem lookupInRegistries_bounded_witness :
    lookupInRegistries natInputs [chainReg] 0 = .error (.cycleDetected 100) ∧
    scanRegistries natInputs 100 [chainReg] = none :=
  ⟨((lookupInRegistries_bounded natInputs [chainReg] 0).2.1 100).mpr
      ⟨chainReg.entries, by decide⟩, by decide⟩

/-- C17: when `lookupInRegistries` returns normally the returned input is direct
and no entry of any registry has a `from` containing it; and when the rewrite
chain reaches, after fewer than 100 rewrites, an input that no entry matches and
that is not direct, `lookupInRegistries` throws the "cannot find flake" error
for that input. -/
theorem lookupInRegistries_direct {I : Type} (ops : InputOps I) (rs : List (Registry I))
    (input : I) :
    (∀ x a, lookupInRegistries ops rs input = .ok x a →
      ops.isDirect x = true ∧
      ∀ r ∈ rs, ∀ e ∈ r.entries, ops.contains e.from_ x = false) ∧
    (∀ k x es, k < 100 → rewriteChain ops rs k input = some (x, es) →
      (∀ r ∈ rs, ∀ e ∈ r.entries, ops.contains e.from_ x = false) →
      ops.isDirect x = false →
      lookupInRegistries ops rs input = .error (.cannotFind (ops.to_string x))) := by
  constructor
  · intro x a h
    obtain ⟨k, es, _, _, hs, hd, _⟩ := lookupLoop_ok_chain ops rs x a 100 0 input [] rfl h
    exact ⟨hd, (scanRegistries_eq_none_iff ops x rs).mp hs⟩
  · intro k x es hk hc hnone hd
    have hs := (scanRegistries_eq_none_iff ops x rs).mpr hnone
    have h := lookupLoop_of_chain_stop ops rs x k 100 0 input [] es rfl hk hc hs
    simpa [lookupInRegistries, hd] using h

/-- Witness for C17: the lookup of 5 stops after one rewrite at 6, which is not
direct, and throws "cannot find flake" for 6. -/
theorem lookupInRegistries_direct_witness :
    lookupInRegistries natInputs (getRegistries flagReg userReg systemReg globalReg) 5
      = .error (.cannotFind "6") :=
  (lookupInRegistries_direct natInputs (getRegistries flagReg userReg systemReg globalReg)
    5).2 1 6 [⟨5, 6, []⟩] (by decide) (by decide) (by decide) (by decide)

/-- C18: a pass of `lookupInRegistries` scans the entries of the flag, user,
system and global registries in this order, each in stored order, and rewrites by
the first entry whose `from` contains the input: an entry preceded only by
non-matching entries is the one applied, whatever follows it. -/
theorem scanRegistries_first_match {I : Type} (ops : InputOps I) (input : I)
    (flag user system global : Registry I) (pre post : List (Entry I)) (e : Entry I)
    (hsplit : flag.entries ++ user.entries ++ system.entries ++ global.entries
      = pre ++ e :: post)
    (hpre : ∀ x ∈ pre, ops.contains x.from_ input = false)
    (he : ops.contains e.from_ input = true) :
    scanRegistries ops input (getRegistries flag user system global) = some e ∧
    ∀ fuel n extra, n < 100 →
      lookupLoop ops (getRegistries flag user system global) (fuel + 1) n input extra =
        match rewriteInput ops e input with
        | .ok input2 =>
          lookupLoop ops (getRegistries flag user system global) fuel (n + 1) input2
            e.extraAttrs
        | .error what => .error (.external what) := by
  have hs : scanRegistries ops input (getRegistries flag user system global) = some e := by
    rw [scanRegistries_eq_find]
    have hflat : (getRegistries flag user system global).flatMap (fun r => r.entries)
        = pre ++ e :: post := by
      simp [getRegistries, ← hsplit]
    rw [hflat, List.find?_append]
    have hp : List.find? (fun e => ops.contains e.from_ input) pre = none := by
      rw [List.find?_eq_none]
      intro x hx
      simp [hpre x hx]
    simp [hp, he]
  refine ⟨hs, ?_⟩
  intro fuel n extra hn
  have h : ¬ (n + 1 > 100) := by omega
  rw [lookupLoop]
  simp only [h, if_false, hs]

/-- Witness for C18: for input 0 the flag entry `0 → 1` is applied although the
user and global registries also hold entries for 0. -/
theorem scanRegistries_first_match_witness :
    scanRegistries natInputs 0 (getRegistries flagReg userReg systemReg globalReg)
      = some ⟨0, 1, [("dir", "flag")]⟩ :=
  (scanRegistries_first_match natInputs 0 flagReg userReg systemReg globalReg []
    [⟨7, 1000, [("dir", "seven")]⟩, ⟨0, 2000, [("dir", "user")]⟩, ⟨1, 2, [("dir", "one")]⟩,
      ⟨0, 3000, []⟩, ⟨2, 1001, [("dir", "two")]⟩, ⟨0, 4000, []⟩, ⟨5, 6, []⟩]
    ⟨0, 1, [("dir", "flag")]⟩ (by decide) (by simp) (by decide)).1

/-- C19: `Registry::remove(input)` terminates and leaves exactly the entries whose
`from` is not equal to `input`, in their original order (all equal ones are
deleted); removing again changes nothing; `Registry::add` appends one entry at
the end and keeps the existing entries and the registry type. -/
theorem Registry_remove_add {I : Type} (ops : InputOps I) (r : Registry I)
    (input from_ to_ : I) (extraAttrs : Attrs) :
    Registry.remove ops r input =
      some { r with entries := r.entries.filter (fun e => !ops.eq e.from_ input) } ∧
    (Registry.remove ops r input).bind (fun r2 => Registry.remove ops r2 input)
      = Registry.remove ops r input ∧
    (r.add from_ to_ extraAttrs).entries = r.entries ++ [⟨from_, to_, extraAttrs⟩] ∧
    (r.add from_ to_ extraAttrs).type = r.type := by
  have hrem : ∀ r2 : Registry I, Registry.remove ops r2 input =
      some { r2 with entries := r2.entries.filter (fun e => !ops.eq e.from_ input) } := by
    intro r2
    unfold Registry.remove
    rw [removeLoop_eq_filter ops input (r2.entries.length + 1) 0 r2.entries (by omega)]
    simp
  refine ⟨hrem r, ?_, rfl, rfl⟩
  rw [hrem r]
  simp only [Option.some_bind]
  rw [hrem]
  simp [List.filter_filter]

/-- C20: `lookupInRegistries` returns normally exactly when the rewrite chain from
the input reaches, after fewer than 100 rewrites, a direct input that no entry
matches; it then returns that input with the extra attributes of the last entry
applied in the chain and of no earlier one, and with empty extra attributes
when no entry was applied: a direct input that no entry matches is returned as
it is with empty extra attributes. -/
theorem lookupInRegistries_extraAttrs {I : Type} (ops : InputOps I) (rs : List (Registry I))
    (input : I) :
    (∀ k x es, k < 100 → rewriteChain ops rs k input = some (x, es) →
      scanRegistries ops x rs = none → ops.isDirect x = true →
      lookupInRegistries ops rs input = .ok x (lastExtraAttrs es)) ∧
    (∀ k x earlier e, k < 100 → rewriteChain ops rs k input = some (x, earlier ++ [e]) →
      scanRegistries ops x rs = none → ops.isDirect x = true →
      lookupInRegistries ops rs input = .ok x e.extraAttrs) ∧
    (scanRegistries ops input rs = none → ops.isDirect input = true →
      lookupInRegistries ops rs input = .ok input []) ∧
    (∀ x a, lookupInRegistries ops rs input = .ok x a →
      ∃ k es, k < 100 ∧ rewriteChain ops rs k input = some (x, es) ∧
        scanRegistries ops x rs = none ∧ ops.isDirect x = true ∧
        a = lastExtraAttrs es) := by
  have hfwd : ∀ k x es, k < 100 → rewriteChain ops rs k input = some (x, es) →
      scanRegistries ops x rs = none → ops.isDirect x = true →
      lookupInRegistries ops rs input = .ok x (lastExtraAttrs es) := by
    intro k x es hk hc hs hd
    have h := lookupLoop_of_chain_stop ops rs x k 100 0 input [] es rfl hk hc hs
    rw [lastExtraAttrs_eq]
    simpa [lookupInRegistries, hd] using h
  refine ⟨hfwd, ?_, ?_, ?_⟩
  · intro k x earlier e hk hc hs hd
    have h := hfwd k x (earlier ++ [e]) hk hc hs hd
    simpa [lastExtraAttrs] using h
  · intro hs hd
    exact hfwd 0 input [] (by omega) rfl hs hd
  · intro x a h
    obtain ⟨k, es, hk, hc, hs, hd, ha⟩ :=
      lookupLoop_ok_chain ops rs x a 100 0 input [] rfl h
    exact ⟨k, es, hk, hc, hs, hd, by rw [lastExtraAttrs_eq]; exact ha⟩

/-- Witness for C20: the lookup of 0 applies the entries `0 → 1`, `1 → 2` and
`2 → 1001` and returns 1001 with the extra attributes of the last one only; the
lookup of the direct, unmatched input 1000 returns it with none. -/
theorem lookupInRegistries_extraAttrs_witness :
    lookupInRegistries natInputs (getRegistries flagReg userReg systemReg globalReg) 0
      = .ok 1001 [("dir", "two")] ∧
    lookupInRegistries natInputs (getRegistries flagReg userReg systemReg globalReg) 1000
      = .ok 1000 [] :=
  ⟨(lookupInRegistries_extraAttrs natInputs
      (getRegistries flagReg userReg systemReg globalReg) 0).2.1 3 1001
      [⟨0, 1, [("dir", "flag")]⟩, ⟨1, 2, [("dir", "one")]⟩] ⟨2, 1001, [("dir", "two")]⟩
      (by decide) (by decide) (by decide) (by decide),
   (lookupInRegistries_extraAttrs natInputs
      (getRegistries flagReg userReg systemReg globalReg) 1000).2.2.1
      (by decide) (by decide)⟩

end Nix

